import Mathlib

/-
  Verification development for the hornet metric core (src/metric.rs).

  The source is embedded shallowly:
  * machine integers become Nat / Int with explicit reductions mod 2^w;
  * a float value is represented by its bit pattern (a Nat below 2^32 or
    2^64), since the code only ever transmutes it to the matching unsigned
    integer and never performs floating-point arithmetic;
  * a Rust String / str is represented by its list of UTF-8 bytes;
  * the byte sink (a mutable byte slice obtained from the mmap view) becomes
    an explicit list of bytes threaded through each operation;
  * io::Result success/failure becomes a Bool flag (or Option for pure
    encodings).

  The parent module constants (super::Endian, super::METRIC_NAME_MAX_LEN,
  super::STRING_BLOCK_LEN) are not part of the given source file; following
  the specification they are modelled as a process-wide configuration value
  over which all statements quantify.
-/

namespace Hornet

/-- Modelled from the spec: `super::Endian` — the single process-wide byte
order, either big- or little-endian, chosen once for the whole producing
process. -/
inductive Endianness where
  | big : Endianness
  | little : Endianness
deriving DecidableEq

/-- The big-endian 8-byte serialization of a 64-bit unsigned integer:
most significant byte first.  This is `byteorder::BigEndian::write_u64`. -/
def u64ToBytesBE (x : Nat) : List Nat :=
  [x / 2 ^ 56 % 256, x / 2 ^ 48 % 256, x / 2 ^ 40 % 256, x / 2 ^ 32 % 256,
   x / 2 ^ 24 % 256, x / 2 ^ 16 % 256, x / 2 ^ 8 % 256, x % 256]

/-- `byteorder`'s `write_u64::<Endian>` buffer: 8 bytes in the configured
byte order (little-endian is the byte-reversal of big-endian). -/
def writeU64Bytes (e : Endianness) (x : Nat) : List Nat :=
  match e with
  | .big => u64ToBytesBE x
  | .little => (u64ToBytesBE x).reverse

/-- Reassemble a big-endian byte list into a natural number
(most significant byte first). -/
def bytesToNatBE (bs : List Nat) : Nat :=
  bs.foldl (fun acc b => acc * 256 + b) 0

/-- Read the first 8 bytes of a buffer as a 64-bit unsigned integer in the
configured byte order. -/
def readU64 (e : Endianness) (bs : List Nat) : Nat :=
  match e with
  | .big => bytesToNatBE (bs.take 8)
  | .little => bytesToNatBE ((bs.take 8).reverse)

-- The fixed external type codes (src/metric.rs lines 10-16).

def I32_METRIC_TYPE_CODE : Nat := 0
def U32_METRIC_TYPE_CODE : Nat := 1
def I64_METRIC_TYPE_CODE : Nat := 2
def U64_METRIC_TYPE_CODE : Nat := 3
def F32_METRIC_TYPE_CODE : Nat := 4
def F64_METRIC_TYPE_CODE : Nat := 5
def STRING_METRIC_TYPE_CODE : Nat := 6

/-- `ITEM_BIT_LEN` from the source. -/
def ITEM_BIT_LEN : Nat := 10

/-- The seven storable value types.  Signed integers carry an `Int`,
unsigned ones a `Nat`; a float carries its bit pattern; a string carries
its UTF-8 bytes.  The Rust-type range bounds are expressed by `Value.wf`. -/
inductive Value where
  | i32 (v : Int) : Value
  | u32 (v : Nat) : Value
  | i64 (v : Int) : Value
  | u64 (v : Nat) : Value
  | f32 (bits : Nat) : Value
  | f64 (bits : Nat) : Value
  | text (s : List Nat) : Value
deriving DecidableEq

/-- Range constraints the corresponding Rust machine types enforce. -/
def Value.wf : Value → Prop
  | .i32 v => -(2 ^ 31) ≤ v ∧ v < 2 ^ 31
  | .u32 v => v < 2 ^ 32
  | .i64 v => -(2 ^ 63) ≤ v ∧ v < 2 ^ 63
  | .u64 v => v < 2 ^ 64
  | .f32 b => b < 2 ^ 32
  | .f64 b => b < 2 ^ 64
  | .text s => ∀ b ∈ s, b < 256

/-- Whether the value is one of the six numeric types. -/
def Value.isNumeric : Value → Bool
  | .text _ => false
  | _ => true

/-- `MetricType::type_code` for each implementation (the macro instances
and the `String` impl). -/
def Value.type_code : Value → Nat
  | .i32 _ => I32_METRIC_TYPE_CODE
  | .u32 _ => U32_METRIC_TYPE_CODE
  | .i64 _ => I64_METRIC_TYPE_CODE
  | .u64 _ => U64_METRIC_TYPE_CODE
  | .f32 _ => F32_METRIC_TYPE_CODE
  | .f64 _ => F64_METRIC_TYPE_CODE
  | .text _ => STRING_METRIC_TYPE_CODE

/-- `transmute::<$typ, $base_typ>(*self) as u64`: the value's native bit
pattern as an unsigned integer of its native width, zero-widened to 64
bits.  (The `text` case is never consulted; it is given the junk value 0.) -/
def Value.toBitsU64 : Value → Nat
  | .i32 v => (v % (2 ^ 32 : Int)).toNat
  | .u32 v => v
  | .i64 v => (v % (2 ^ 64 : Int)).toNat
  | .u64 v => v
  | .f32 b => b
  | .f64 b => b
  | .text _ => 0

/-- Pure view of `MetricType::write_to_writer` against an unbounded sink:
the byte sequence a value encodes to, or `none` when encoding itself fails
(a string holding an embedded zero byte, `CString::new` returning an
error before anything is written).  Numeric values write the 8-byte
`write_u64::<Endian>` buffer; strings write their bytes plus one
terminating zero byte (`CString::to_bytes_with_nul`). -/
def Value.encode (e : Endianness) : Value → Option (List Nat)
  | .text s => if 0 ∈ s then none else some (s ++ [0])
  | v => some (writeU64Bytes e v.toBitsU64)

/-- `std::io::Write::write_all` against a mutable byte slice positioned at
offset 0 (`&mut mmap_view.as_mut_slice()`): as many bytes of `data` as fit
are copied to the front of the region; the call succeeds iff all of `data`
fit (otherwise the slice's `write` eventually returns 0 and `write_all`
fails with `WriteZero`, the copied bytes staying in place). -/
def writeAll (region : List Nat) (data : List Nat) : List Nat × Bool :=
  (data.take region.length ++ region.drop data.length,
   decide (data.length ≤ region.length))

/-- `MetricType::write_to_writer` against a byte-slice sink: the new region
contents and the success flag.  A string holding an embedded zero byte
fails inside `CString::new` before anything reaches the sink. -/
def Value.write_to_writer (e : Endianness) (v : Value) (region : List Nat) :
    List Nat × Bool :=
  match v with
  | .text s => if 0 ∈ s then (region, false) else writeAll region (s ++ [0])
  | v => writeAll region (writeU64Bytes e v.toBitsU64)

/-- `Semamtics` (sic) — the closed semantic classification enumeration. -/
inductive Semamtics where
  | Counter : Semamtics
  | Instant : Semamtics
  | Discrete : Semamtics
deriving DecidableEq

/-- The externally dictated integer discriminants of `Semamtics`. -/
def Semamtics.code : Semamtics → Nat
  | .Counter => 1
  | .Instant => 3
  | .Discrete => 4

/-- Modelled from the spec: the parent-module configuration the source
refers to as `super::*` — the process-wide byte order and the two fixed
maximum lengths (name, string block). -/
structure Config where
  endian : Endianness
  nameMaxLen : Nat
  stringBlockLen : Nat

/-- `Metric<T>`: the descriptor struct.  The mmap view is represented by
the bytes of the backing region. -/
structure Metric where
  name : List Nat
  item : Nat
  sem : Semamtics
  indom : Nat
  dim : Nat
  shorthelp : List Nat
  longhelp : List Nat
  val : Value
  mmap_view : List Nat
deriving DecidableEq

/-- `Metric::new`.  The three `assert!` length checks become the success
condition (`none` models the abort); the item identifier is masked with
`(1 << ITEM_BIT_LEN) - 1`; `indom` starts at 0; the backing region is the
process-wide anonymous scratch mapping of `STRING_BLOCK_LEN` zero bytes. -/
def Metric.new (c : Config) (name : List Nat) (item : Nat) (sem : Semamtics)
    (dim : Nat) (init_val : Value) (shorthelp : List Nat)
    (longhelp : List Nat) : Option Metric :=
  if name.length < c.nameMaxLen ∧ shorthelp.length < c.stringBlockLen ∧
      longhelp.length < c.stringBlockLen then
    some { name := name,
           item := item &&& ((1 <<< ITEM_BIT_LEN) - 1),
           sem := sem,
           indom := 0,
           dim := dim,
           shorthelp := shorthelp,
           longhelp := longhelp,
           val := init_val,
           mmap_view := List.replicate c.stringBlockLen 0 }
  else
    none

/-- `Metric::set_val`: store the new value, then encode it into the backing
region; the Bool is the `io::Result` success flag. -/
def Metric.set_val (e : Endianness) (m : Metric) (v : Value) :
    Metric × Bool :=
  let w := v.write_to_writer e m.mmap_view
  ({ m with val := v, mmap_view := w.1 }, w.2)

/-- `MMVMetric::set_mmap_view` (rebind): replace the backing handle. -/
def Metric.set_mmap_view (m : Metric) (mmap_view : List Nat) : Metric :=
  { m with mmap_view := mmap_view }

/-- `MMVMetric::item` — the type-erased item accessor. -/
def Metric.mmvItem (m : Metric) : Nat := m.item

/-- `MMVMetric::indom` — the type-erased instance-domain accessor. -/
def Metric.mmvIndom (m : Metric) : Nat := m.indom

/-- `MMVMetric::type_code` — delegated to the current value's codec. -/
def Metric.mmvTypeCode (m : Metric) : Nat := m.val.type_code

/-- `MMVMetric::write_value` — encode the current value into an externally
supplied byte sink. -/
def Metric.write_value (e : Endianness) (m : Metric) (region : List Nat) :
    List Nat × Bool :=
  m.val.write_to_writer e region

/-- Modelled from the spec: the decode direction of the round-trip property
(the repository has no reader-side code).  The 8 bytes are reinterpreted
per the configured byte order, truncated to the chosen width, and the bit
pattern is read back as a value of the type named by `code`; a text block
is read up to its terminating zero byte. -/
def decodeValue (e : Endianness) (code : Nat) (bs : List Nat) :
    Option Value :=
  if code = STRING_METRIC_TYPE_CODE then
    if 0 ∈ bs then some (.text (bs.takeWhile (fun b => b != 0))) else none
  else if bs.length < 8 then
    none
  else
    let x := readU64 e bs
    if code = I32_METRIC_TYPE_CODE then
      some (.i32 (if x % 2 ^ 32 < 2 ^ 31 then (x % 2 ^ 32 : Nat)
                  else (x % 2 ^ 32 : Nat) - 2 ^ 32))
    else if code = U32_METRIC_TYPE_CODE then
      some (.u32 (x % 2 ^ 32))
    else if code = I64_METRIC_TYPE_CODE then
      some (.i64 (if x % 2 ^ 64 < 2 ^ 63 then (x % 2 ^ 64 : Nat)
                  else (x % 2 ^ 64 : Nat) - 2 ^ 64))
    else if code = U64_METRIC_TYPE_CODE then
      some (.u64 (x % 2 ^ 64))
    else if code = F32_METRIC_TYPE_CODE then
      some (.f32 (x % 2 ^ 32))
    else if code = F64_METRIC_TYPE_CODE then
      some (.f64 (x % 2 ^ 64))
    else
      none

/-- The reachable descriptor states: those produced by `Metric::new` and
closed under `set_val` and rebinding. -/
inductive Reachable (c : Config) : Metric → Prop where
  | new : ∀ name item sem dim v sh lh m,
      Metric.new c name item sem dim v sh lh = some m → Reachable c m
  | step_set_val : ∀ m v, Reachable c m →
      Reachable c (Metric.set_val c.endian m v).1
  | step_rebind : ∀ m r, Reachable c m →
      Reachable c (Metric.set_mmap_view m r)

/-- A concrete descriptor used to exhibit concrete behaviours (any field
values; the backing region is the interesting part). -/
def sampleMetric (val : Value) (region : List Nat) : Metric :=
  { name := [109], item := 1, sem := .Counter, indom := 0, dim := 0,
    shorthelp := [], longhelp := [], val := val, mmap_view := region }

/-- The descriptor literal that `Metric.new` with empty help strings, a
configuration with maximum lengths 64 and 8, and a u32 initial value
produces. -/
def witnessMetric (item0 : Nat) (val0 : Value) : Metric :=
  { name := [], item := item0, sem := .Counter, indom := 0, dim := 0,
    shorthelp := [], longhelp := [], val := val0,
    mmap_view := List.replicate 8 0 }

-- ### Helper lemmas

theorem writeU64Bytes_length (e : Endianness) (x : Nat) :
    (writeU64Bytes e x).length = 8 := by
  cases e <;> simp [writeU64Bytes, u64ToBytesBE]

theorem bytesToNatBE_u64ToBytesBE (x : Nat) :
    bytesToNatBE (u64ToBytesBE x) = x % 2 ^ 64 := by
  simp [bytesToNatBE, u64ToBytesBE, List.foldl]
  omega

theorem readU64_writeU64Bytes (e : Endianness) (x : Nat) :
    readU64 e (writeU64Bytes e x) = x % 2 ^ 64 := by
  cases e with
  | big =>
    have h : (u64ToBytesBE x).take 8 = u64ToBytesBE x := by
      simp [u64ToBytesBE]
    simp [readU64, writeU64Bytes, h, bytesToNatBE_u64ToBytesBE]
  | little =>
    have h : ((u64ToBytesBE x).reverse).take 8 = (u64ToBytesBE x).reverse := by
      simp [u64ToBytesBE]
    simp [readU64, writeU64Bytes, h, bytesToNatBE_u64ToBytesBE]

theorem takeWhile_append_zero (s r : List Nat) (h : 0 ∉ s) :
    (s ++ 0 :: r).takeWhile (fun b => b != 0) = s := by
  induction s with
  | nil => simp [List.takeWhile]
  | cons a as ih =>
    simp only [List.mem_cons, not_or] at h
    have ha : (a != 0) = true := by
      simp [bne]
      omega
    simp [List.takeWhile, ha, ih h.2]

theorem item_mask_eq_mod (x : Nat) :
    x &&& ((1 <<< ITEM_BIT_LEN) - 1) = x % 2 ^ 10 := by
  have h : (1 <<< ITEM_BIT_LEN) - 1 = 2 ^ 10 - 1 := by decide
  rw [h, Nat.and_pow_two_sub_one_eq_mod]

theorem toBitsU64_lt (v : Value) (hv : v.wf) : v.toBitsU64 < 2 ^ 64 := by
  rcases v with v | v | v | v | b | b | s <;>
    simp only [Value.toBitsU64, Value.wf] at hv ⊢ <;> omega

theorem take8_writeU64_append (e : Endianness) (x : Nat) (rest : List Nat) :
    (writeU64Bytes e x ++ rest).take 8 = writeU64Bytes e x := by
  have h := writeU64Bytes_length e x
  rw [← h, List.take_left]

theorem readU64_writeU64_append (e : Endianness) (x : Nat) (rest : List Nat) :
    readU64 e (writeU64Bytes e x ++ rest) = x % 2 ^ 64 := by
  cases e with
  | big =>
    show bytesToNatBE ((writeU64Bytes .big x ++ rest).take 8) = x % 2 ^ 64
    rw [take8_writeU64_append]
    exact bytesToNatBE_u64ToBytesBE x
  | little =>
    show bytesToNatBE (((writeU64Bytes .little x ++ rest).take 8).reverse) =
      x % 2 ^ 64
    rw [take8_writeU64_append]
    show bytesToNatBE ((u64ToBytesBE x).reverse.reverse) = x % 2 ^ 64
    rw [List.reverse_reverse]
    exact bytesToNatBE_u64ToBytesBE x

theorem length_writeU64_append (e : Endianness) (x : Nat) (rest : List Nat) :
    ((writeU64Bytes e x).length + rest.length < 8) = False :=
  eq_false (by rw [writeU64Bytes_length]; omega)

theorem decodeValue_i32 (e : Endianness) (x : Nat) (rest : List Nat)
    (hx : x < 2 ^ 64) :
    decodeValue e I32_METRIC_TYPE_CODE (writeU64Bytes e x ++ rest) =
      some (.i32 (if x % 2 ^ 32 < 2 ^ 31 then ((x % 2 ^ 32 : Nat) : Int)
                  else ((x % 2 ^ 32 : Nat) : Int) - 2 ^ 32)) := by
  simp [decodeValue, STRING_METRIC_TYPE_CODE, I32_METRIC_TYPE_CODE,
    length_writeU64_append e x rest, readU64_writeU64_append,
    Nat.mod_eq_of_lt hx]
  split_ifs <;> omega

theorem decodeValue_u32 (e : Endianness) (x : Nat) (rest : List Nat)
    (hx : x < 2 ^ 64) :
    decodeValue e U32_METRIC_TYPE_CODE (writeU64Bytes e x ++ rest) =
      some (.u32 (x % 2 ^ 32)) := by
  simp [decodeValue, STRING_METRIC_TYPE_CODE, I32_METRIC_TYPE_CODE,
    U32_METRIC_TYPE_CODE, length_writeU64_append e x rest,
    readU64_writeU64_append, Nat.mod_eq_of_lt hx]
  omega

theorem decodeValue_i64 (e : Endianness) (x : Nat) (rest : List Nat)
    (hx : x < 2 ^ 64) :
    decodeValue e I64_METRIC_TYPE_CODE (writeU64Bytes e x ++ rest) =
      some (.i64 (if x % 2 ^ 64 < 2 ^ 63 then ((x % 2 ^ 64 : Nat) : Int)
                  else ((x % 2 ^ 64 : Nat) : Int) - 2 ^ 64)) := by
  simp [decodeValue, STRING_METRIC_TYPE_CODE, I32_METRIC_TYPE_CODE,
    U32_METRIC_TYPE_CODE, I64_METRIC_TYPE_CODE,
    length_writeU64_append e x rest, readU64_writeU64_append,
    Nat.mod_eq_of_lt hx]

theorem decodeValue_u64 (e : Endianness) (x : Nat) (rest : List Nat)
    (hx : x < 2 ^ 64) :
    decodeValue e U64_METRIC_TYPE_CODE (writeU64Bytes e x ++ rest) =
      some (.u64 (x % 2 ^ 64)) := by
  simp [decodeValue, STRING_METRIC_TYPE_CODE, I32_METRIC_TYPE_CODE,
    U32_METRIC_TYPE_CODE, I64_METRIC_TYPE_CODE, U64_METRIC_TYPE_CODE,
    length_writeU64_append e x rest, readU64_writeU64_append,
    Nat.mod_eq_of_lt hx]

theorem decodeValue_f32 (e : Endianness) (x : Nat) (rest : List Nat)
    (hx : x < 2 ^ 64) :
    decodeValue e F32_METRIC_TYPE_CODE (writeU64Bytes e x ++ rest) =
      some (.f32 (x % 2 ^ 32)) := by
  simp [decodeValue, STRING_METRIC_TYPE_CODE, I32_METRIC_TYPE_CODE,
    U32_METRIC_TYPE_CODE, I64_METRIC_TYPE_CODE, U64_METRIC_TYPE_CODE,
    F32_METRIC_TYPE_CODE, length_writeU64_append e x rest,
    readU64_writeU64_append, Nat.mod_eq_of_lt hx]
  omega

theorem decodeValue_f64 (e : Endianness) (x : Nat) (rest : List Nat)
    (hx : x < 2 ^ 64) :
    decodeValue e F64_METRIC_TYPE_CODE (writeU64Bytes e x ++ rest) =
      some (.f64 (x % 2 ^ 64)) := by
  simp [decodeValue, STRING_METRIC_TYPE_CODE, I32_METRIC_TYPE_CODE,
    U32_METRIC_TYPE_CODE, I64_METRIC_TYPE_CODE, U64_METRIC_TYPE_CODE,
    F32_METRIC_TYPE_CODE, F64_METRIC_TYPE_CODE,
    length_writeU64_append e x rest, readU64_writeU64_append,
    Nat.mod_eq_of_lt hx]

/-- Shared decode direction: for a well-formed numeric value, decoding the
region that starts with its 8 encoded bytes (whatever follows them)
recovers the value. -/
theorem decode_roundtrip_num (e : Endianness) (v : Value) (hv : v.wf)
    (hn : v.isNumeric = true) (rest : List Nat) :
    decodeValue e v.type_code (writeU64Bytes e v.toBitsU64 ++ rest) =
      some v := by
  have hlt : v.toBitsU64 < 2 ^ 64 := toBitsU64_lt v hv
  rcases v with v | v | v | v | b | b | s
  case i32 =>
    simp only [Value.wf] at hv
    simp only [Value.toBitsU64] at hlt ⊢
    simp only [Value.type_code]
    rw [decodeValue_i32 e _ rest hlt]
    simp only [Option.some.injEq, Value.i32.injEq]
    split_ifs <;> omega
  case u32 =>
    simp only [Value.wf] at hv
    simp only [Value.toBitsU64] at hlt ⊢
    simp only [Value.type_code]
    rw [decodeValue_u32 e _ rest hlt]
    simp only [Option.some.injEq, Value.u32.injEq]
    omega
  case i64 =>
    simp only [Value.wf] at hv
    simp only [Value.toBitsU64] at hlt ⊢
    simp only [Value.type_code]
    rw [decodeValue_i64 e _ rest hlt]
    simp only [Option.some.injEq, Value.i64.injEq]
    split_ifs <;> omega
  case u64 =>
    simp only [Value.wf] at hv
    simp only [Value.toBitsU64] at hlt ⊢
    simp only [Value.type_code]
    rw [decodeValue_u64 e _ rest hlt]
    simp only [Option.some.injEq, Value.u64.injEq]
    omega
  case f32 =>
    simp only [Value.wf] at hv
    simp only [Value.toBitsU64] at hlt ⊢
    simp only [Value.type_code]
    rw [decodeValue_f32 e _ rest hlt]
    simp only [Option.some.injEq, Value.f32.injEq]
    omega
  case f64 =>
    simp only [Value.wf] at hv
    simp only [Value.toBitsU64] at hlt ⊢
    simp only [Value.type_code]
    rw [decodeValue_f64 e _ rest hlt]
    simp only [Option.some.injEq, Value.f64.injEq]
    omega
  case text =>
    simp [Value.isNumeric] at hn

/-- On a numeric value, `write_to_writer` copies the 8-byte `write_u64`
buffer into the slice. -/
theorem write_to_writer_num (e : Endianness) (v : Value)
    (hn : v.isNumeric = true) (region : List Nat) :
    v.write_to_writer e region = writeAll region (writeU64Bytes e v.toBitsU64) := by
  rcases v with v | v | v | v | b | b | s <;>
    simp [Value.write_to_writer, Value.isNumeric] at hn ⊢

/-- On a numeric value, `encode` is the 8-byte `write_u64` buffer. -/
theorem encode_num (e : Endianness) (v : Value) (hn : v.isNumeric = true) :
    Value.encode e v = some (writeU64Bytes e v.toBitsU64) := by
  rcases v with v | v | v | v | b | b | s <;>
    simp [Value.encode, Value.isNumeric] at hn ⊢

/-- `write_all` on a slice at least as long as the data: the data lands at
the front, the tail of the region is untouched, and the call succeeds. -/
theorem writeAll_fits (region data : List Nat)
    (h : data.length ≤ region.length) :
    writeAll region data = (data ++ region.drop data.length, true) := by
  simp [writeAll, List.take_of_length_le h, h]

/-- `write_all` on a slice shorter than the data: only the region-sized
head of the data lands, and the call fails. -/
theorem writeAll_overflow (region data : List Nat)
    (h : region.length < data.length) :
    writeAll region data = (data.take region.length, false) := by
  have h1 : region.drop data.length = [] :=
    List.drop_eq_nil_of_le (by omega)
  have h2 : ¬ data.length ≤ region.length := by omega
  simp [writeAll, h1, h2]

/-- Whenever a value encodes to `bs`, writing it to a slice behaves as
`write_all bs`. -/
theorem write_to_writer_encode (e : Endianness) (v : Value)
    (bs region : List Nat) (h : Value.encode e v = some bs) :
    v.write_to_writer e region = writeAll region bs := by
  by_cases hnum : v.isNumeric = true
  · rw [write_to_writer_num e v hnum region]
    rw [encode_num e v hnum] at h
    injection h with h
    rw [h]
  · rcases v with v | v | v | v | b | b | s
    iterate 6 simp [Value.isNumeric] at hnum
    by_cases hz : 0 ∈ s
    · simp [Value.encode, hz] at h
    · simp [Value.encode, hz] at h
      simp [Value.write_to_writer, hz, h]

-- ### Claim theorems

/-- C1: for every numeric value type (i32, u32, i64, u64, f32, f64) the
codec's encode writes exactly 8 bytes, equal to the value's native bit
pattern reinterpreted as an unsigned integer of its native width,
zero-widened to 64 bits (`Value.toBitsU64`), serialized in the configured
byte order; decoding those 8 bytes back at the chosen width recovers the
original value (`decodeValue (encode v) = v`). -/
theorem claim_numeric_encode_roundtrip (e : Endianness) (v : Value)
    (hv : v.wf) (hn : v.isNumeric = true) :
    Value.encode e v = some (writeU64Bytes e v.toBitsU64) ∧
    (writeU64Bytes e v.toBitsU64).length = 8 ∧
    readU64 e (writeU64Bytes e v.toBitsU64) = v.toBitsU64 ∧
    decodeValue e v.type_code (writeU64Bytes e v.toBitsU64) = some v := by
  have hlt : v.toBitsU64 < 2 ^ 64 := toBitsU64_lt v hv
  have hread : readU64 e (writeU64Bytes e v.toBitsU64) = v.toBitsU64 := by
    rw [readU64_writeU64Bytes, Nat.mod_eq_of_lt hlt]
  have hlen : (writeU64Bytes e v.toBitsU64).length = 8 :=
    writeU64Bytes_length e _
  refine ⟨?_, hlen, hread, ?_⟩
  · rcases v with v | v | v | v | b | b | s <;>
      simp_all [Value.encode, Value.isNumeric]
  · have h := decode_roundtrip_num e v hv hn []
    simpa using h

/-- Witness for C1 at a concrete input: the i32 value -2 under a
little-endian configuration encodes to 8 bytes holding bit pattern
0x00000000FFFFFFFE and decodes back to -2. -/
theorem claim_numeric_encode_roundtrip_witness :
    Value.encode .little (.i32 (-2)) =
      some (writeU64Bytes .little (Value.toBitsU64 (.i32 (-2)))) ∧
    (writeU64Bytes .little (Value.toBitsU64 (.i32 (-2)))).length = 8 ∧
    readU64 .little (writeU64Bytes .little (Value.toBitsU64 (.i32 (-2)))) =
      Value.toBitsU64 (.i32 (-2)) ∧
    decodeValue .little (Value.type_code (.i32 (-2)))
      (writeU64Bytes .little (Value.toBitsU64 (.i32 (-2)))) =
      some (.i32 (-2)) :=
  claim_numeric_encode_roundtrip .little (.i32 (-2))
    (by constructor <;> norm_num [Value.wf]) (by decide)

/-- C2: encoding a text value produces exactly the string's bytes followed
by one terminating zero byte; a string holding an embedded zero byte fails
to encode and nothing reaches the sink (the region is returned unchanged
with a failure flag). -/
theorem claim_text_encode (e : Endianness) (s region : List Nat) :
    (0 ∉ s → Value.encode e (.text s) = some (s ++ [0])) ∧
    (0 ∈ s → Value.encode e (.text s) = none ∧
      Value.write_to_writer e (.text s) region = (region, false)) := by
  constructor
  · intro h
    simp [Value.encode, h]
  · intro h
    simp [Value.encode, Value.write_to_writer, h]

/-- Witness for C2: the bytes of "abc" encode to 0x61 0x62 0x63 0x00, and
the text 0x61 0x00 0x63 fails to encode, the sink untouched. -/
theorem claim_text_encode_witness :
    Value.encode .little (.text [97, 98, 99]) = some [97, 98, 99, 0] ∧
    (Value.encode .little (.text [97, 0, 99]) = none ∧
      Value.write_to_writer .little (.text [97, 0, 99]) [5, 5, 5, 5] =
        ([5, 5, 5, 5], false)) :=
  ⟨(claim_text_encode .little [97, 98, 99] []).1 (by decide),
   (claim_text_encode .little [97, 0, 99] [5, 5, 5, 5]).2 (by decide)⟩

/-- C3: a successful `set_val` followed by `val` returns the new value;
the backing region then starts with exactly the codec encoding of that
value and decodes back to it; and the current value is independent of the
backing region (replacing the region leaves it intact, and reading it is a
pure field access). -/
theorem claim_set_val_then_val (e : Endianness) (m : Metric) (v : Value)
    (hv : v.wf) (hok : (m.set_val e v).2 = true) :
    (m.set_val e v).1.val = v ∧
    (∃ bs, Value.encode e v = some bs ∧
      (m.set_val e v).1.mmap_view.take bs.length = bs ∧
      decodeValue e v.type_code (m.set_val e v).1.mmap_view = some v) ∧
    (∀ r : List Nat, (Metric.set_mmap_view m r).val = m.val) := by
  refine ⟨by simp [Metric.set_val], ?_, fun r => rfl⟩
  by_cases hnum : v.isNumeric = true
  · -- numeric value: the region starts with the 8-byte buffer
    have hw := write_to_writer_num e v hnum m.mmap_view
    have hle : (writeU64Bytes e v.toBitsU64).length ≤ m.mmap_view.length := by
      have h2 := hok
      simp [Metric.set_val, hw, writeAll] at h2
      exact h2
    have hall := writeAll_fits m.mmap_view _ hle
    refine ⟨writeU64Bytes e v.toBitsU64, encode_num e v hnum, ?_, ?_⟩
    · simp [Metric.set_val, hw, hall, List.take_left]
    · simp only [Metric.set_val, hw, hall]
      exact decode_roundtrip_num e v hv hnum _
  · -- text value: the region starts with the bytes and the terminator
    rcases v with v | v | v | v | b | b | s
    iterate 6 simp [Value.isNumeric] at hnum
    have hz : 0 ∉ s := by
      intro h0
      simp [Metric.set_val, Value.write_to_writer, h0] at hok
    have hw : Value.write_to_writer e (.text s) m.mmap_view =
        writeAll m.mmap_view (s ++ [0]) := by
      simp [Value.write_to_writer, hz]
    have hle : (s ++ [0]).length ≤ m.mmap_view.length := by
      have h2 := hok
      simp [Metric.set_val, hw, writeAll] at h2
      simpa using h2
    have hall := writeAll_fits m.mmap_view _ hle
    refine ⟨s ++ [0], by simp [Value.encode, hz], ?_, ?_⟩
    · show (Metric.set_val e m (.text s)).1.mmap_view.take
          (s ++ [0]).length = s ++ [0]
      simp only [Metric.set_val, hw, hall]
      exact List.take_left _ _
    · simp only [Metric.set_val, hw, hall]
      have hsplit : (s ++ [0]) ++ m.mmap_view.drop (s ++ [0]).length =
          s ++ 0 :: m.mmap_view.drop (s ++ [0]).length := by
        simp
      simp only [Value.type_code, decodeValue, STRING_METRIC_TYPE_CODE,
        if_pos rfl, hsplit]
      simp [takeWhile_append_zero _ _ hz]

/-- Witness for C3: setting the u32 value 5 on a descriptor whose region
holds 16 bytes succeeds, stores 5, and leaves the encoding of 5 at the
front of the region. -/
theorem claim_set_val_then_val_witness :
    ((sampleMetric (.u32 0) (List.replicate 16 7)).set_val .little
        (.u32 5)).1.val = .u32 5 ∧
    (∃ bs, Value.encode .little (.u32 5) = some bs ∧
      ((sampleMetric (.u32 0) (List.replicate 16 7)).set_val .little
          (.u32 5)).1.mmap_view.take bs.length = bs ∧
      decodeValue .little (Value.type_code (.u32 5))
        ((sampleMetric (.u32 0) (List.replicate 16 7)).set_val .little
            (.u32 5)).1.mmap_view = some (.u32 5)) ∧
    (∀ r : List Nat,
      (Metric.set_mmap_view (sampleMetric (.u32 0) (List.replicate 16 7))
          r).val = (sampleMetric (.u32 0) (List.replicate 16 7)).val) :=
  claim_set_val_then_val .little (sampleMetric (.u32 0) (List.replicate 16 7))
    (.u32 5) (by norm_num [Value.wf]) (by decide)

/-- C9: when `set_val` fails, the in-process value has nevertheless been
replaced: the descriptor afterwards reports the new value even though the
backing region does not reflect it. -/
theorem claim_failed_set_val_updates_val (e : Endianness) (m : Metric)
    (v : Value) (hfail : (m.set_val e v).2 = false) :
    (m.set_val e v).1.val = v := by
  simp [Metric.set_val]

/-- Witness for C9: writing the u64 value 7 against an empty region fails,
yet the stored value is 7 afterwards. -/
theorem claim_failed_set_val_updates_val_witness :
    ((sampleMetric (.u64 0) []).set_val .little (.u64 7)).1.val = .u64 7 :=
  claim_failed_set_val_updates_val .little (sampleMetric (.u64 0) [])
    (.u64 7) (by decide)

/-- C4 counterexample: on a 3-byte backing region, setting the u64 value 1
fails, yet the region's previous bytes are NOT left as they were — a
3-byte prefix of the 8-byte encoding has been written over them.  This
refutes the claim that a failing `set_val` leaves the previously written
backing-region bytes exactly as they were. -/
theorem claim_no_partial_write_counterexample :
    ¬ ((((sampleMetric (.u64 0) [9, 9, 9]).set_val .big (.u64 1)).2 = true) ∨
       ((((sampleMetric (.u64 0) [9, 9, 9]).set_val .big (.u64 1)).2 = false) ∧
        ((sampleMetric (.u64 0) [9, 9, 9]).set_val .big
            (.u64 1)).1.mmap_view = [9, 9, 9])) := by
  decide

/-- C4 (amended): when the encoded form fits the backing region, `set_val`
writes it in full at the front of the region and succeeds; when the region
is shorter than the encoded form, the call fails after overwriting the
whole region with the matching prefix of the encoding; when the value
cannot be encoded at all (text holding an embedded zero byte), the call
fails with the region exactly as it was. -/
theorem claim_write_or_fail_amended (e : Endianness) (m : Metric)
    (v : Value) :
    (∀ bs, Value.encode e v = some bs →
      (bs.length ≤ m.mmap_view.length →
        (m.set_val e v).2 = true ∧
        (m.set_val e v).1.mmap_view = bs ++ m.mmap_view.drop bs.length) ∧
      (m.mmap_view.length < bs.length →
        (m.set_val e v).2 = false ∧
        (m.set_val e v).1.mmap_view = bs.take m.mmap_view.length)) ∧
    (Value.encode e v = none →
      (m.set_val e v).2 = false ∧
      (m.set_val e v).1.mmap_view = m.mmap_view) := by
  constructor
  · intro bs hbs
    have hw := write_to_writer_encode e v bs m.mmap_view hbs
    constructor
    · intro hle
      have hfit := writeAll_fits m.mmap_view bs hle
      exact ⟨by simp [Metric.set_val, hw, hfit],
             by simp [Metric.set_val, hw, hfit]⟩
    · intro hlt
      have hover := writeAll_overflow m.mmap_view bs hlt
      exact ⟨by simp [Metric.set_val, hw, hover],
             by simp [Metric.set_val, hw, hover]⟩
  · intro hnone
    rcases v with v | v | v | v | b | b | s
    iterate 6 simp [Value.encode] at hnone
    by_cases hz : 0 ∈ s
    · refine ⟨?_, ?_⟩ <;> simp [Metric.set_val, Value.write_to_writer, hz]
    · simp [Value.encode, hz] at hnone

/-- Witness for the amended C4: a u64 write into a 16-byte region succeeds
and lands in full at the front; encoding the text value consisting of a
single zero byte fails with a 3-byte region unchanged. -/
theorem claim_write_or_fail_amended_witness :
    (((sampleMetric (.u64 0) (List.replicate 16 7)).set_val .big
        (.u64 1)).2 = true ∧
      ((sampleMetric (.u64 0) (List.replicate 16 7)).set_val .big
          (.u64 1)).1.mmap_view =
        [0, 0, 0, 0, 0, 0, 0, 1] ++
          (sampleMetric (.u64 0)
              (List.replicate 16 7)).mmap_view.drop
            ([0, 0, 0, 0, 0, 0, 0, 1] : List Nat).length) ∧
    (((sampleMetric (.u64 0) [9, 9, 9]).set_val .big (.text [0])).2 =
        false ∧
      ((sampleMetric (.u64 0) [9, 9, 9]).set_val .big
          (.text [0])).1.mmap_view =
        (sampleMetric (.u64 0) [9, 9, 9]).mmap_view) :=
  ⟨((claim_write_or_fail_amended .big
        (sampleMetric (.u64 0) (List.replicate 16 7)) (.u64 1)).1
      [0, 0, 0, 0, 0, 0, 0, 1] (by decide)).1 (by decide),
   (claim_write_or_fail_amended .big (sampleMetric (.u64 0) [9, 9, 9])
        (.text [0])).2 (by decide)⟩

/-- C5: descriptor construction succeeds exactly when the name is strictly
shorter than the maximum name length and both help texts are strictly
shorter than the string-block length; a name of exactly the maximum length
fails and one byte shorter succeeds; on success none of the three strings
is truncated. -/
theorem claim_new_length_validation (c : Config) (name : List Nat)
    (item : Nat) (sem : Semamtics) (dim : Nat) (v : Value)
    (sh lh : List Nat) :
    ((Metric.new c name item sem dim v sh lh).isSome ↔
      (name.length < c.nameMaxLen ∧ sh.length < c.stringBlockLen ∧
        lh.length < c.stringBlockLen)) ∧
    (∀ m, Metric.new c name item sem dim v sh lh = some m →
      m.name = name ∧ m.shorthelp = sh ∧ m.longhelp = lh) ∧
    (name.length = c.nameMaxLen →
      Metric.new c name item sem dim v sh lh = none) ∧
    (name.length + 1 = c.nameMaxLen → sh.length < c.stringBlockLen →
      lh.length < c.stringBlockLen →
      (Metric.new c name item sem dim v sh lh).isSome) := by
  refine ⟨?_, ?_, ?_, ?_⟩
  · unfold Metric.new
    split_ifs with h <;> simp [h]
  · intro m hm
    unfold Metric.new at hm
    split_ifs at hm with h
    cases hm
    exact ⟨rfl, rfl, rfl⟩
  · intro hlen
    unfold Metric.new
    rw [if_neg]
    intro hcon
    exact absurd hcon.1 (by omega)
  · intro h1 h2 h3
    unfold Metric.new
    rw [if_pos ⟨by omega, h2, h3⟩]
    rfl

/-- Witness for C5: with maximum name length 64 and string-block length
256, a 63-byte name is accepted and a 64-byte name is rejected. -/
theorem claim_new_length_validation_witness :
    (Metric.new ⟨.little, 64, 256⟩ (List.replicate 63 97) 1 .Counter 0
        (.u32 0) [] []).isSome ∧
    ¬ (Metric.new ⟨.little, 64, 256⟩ (List.replicate 64 97) 1 .Counter 0
        (.u32 0) [] []).isSome := by
  constructor
  · exact (claim_new_length_validation ⟨.little, 64, 256⟩
        (List.replicate 63 97) 1 .Counter 0 (.u32 0) [] []).1.mpr
      (by simp)
  · intro h
    have hc := (claim_new_length_validation ⟨.little, 64, 256⟩
        (List.replicate 64 97) 1 .Counter 0 (.u32 0) [] []).1.mp h
    simp at hc

/-- C6: the stored item identifier is the constructor argument masked to
its low 10 bits, and the type-erased item accessor returns it. -/
theorem claim_item_truncated (c : Config) (name : List Nat) (item : Nat)
    (sem : Semamtics) (dim : Nat) (v : Value) (sh lh : List Nat)
    (m : Metric) (h : Metric.new c name item sem dim v sh lh = some m) :
    m.item = item &&& ((1 <<< ITEM_BIT_LEN) - 1) ∧
    m.mmvItem = item % 2 ^ 10 := by
  unfold Metric.new at h
  split_ifs at h with hcond
  cases h
  exact ⟨rfl, item_mask_eq_mod item⟩

/-- Witness for C6: constructing with item 1034 stores 10, and the item
accessor returns 1034 mod 1024 = 10. -/
theorem claim_item_truncated_witness :
    Metric.item (witnessMetric 10 (.u32 0)) =
      1034 &&& ((1 <<< ITEM_BIT_LEN) - 1) ∧
    Metric.mmvItem (witnessMetric 10 (.u32 0)) = 1034 % 2 ^ 10 :=
  claim_item_truncated ⟨.little, 64, 8⟩ [] 1034 .Counter 0 (.u32 0)
    [] [] _ (by decide)

/-- C7: the external integer codes are the fixed enumeration — type codes
0=int32, 1=uint32, 2=int64, 3=uint64, 4=float32, 5=float64, 6=text, seven
pairwise-distinct values; the type identifier is a pure function of the
value type; semantic codes are Counter=1, Instant=3, Discrete=4. -/
theorem claim_codes_fixed :
    (I32_METRIC_TYPE_CODE = 0 ∧ U32_METRIC_TYPE_CODE = 1 ∧
     I64_METRIC_TYPE_CODE = 2 ∧ U64_METRIC_TYPE_CODE = 3 ∧
     F32_METRIC_TYPE_CODE = 4 ∧ F64_METRIC_TYPE_CODE = 5 ∧
     STRING_METRIC_TYPE_CODE = 6) ∧
    ([I32_METRIC_TYPE_CODE, U32_METRIC_TYPE_CODE, I64_METRIC_TYPE_CODE,
      U64_METRIC_TYPE_CODE, F32_METRIC_TYPE_CODE, F64_METRIC_TYPE_CODE,
      STRING_METRIC_TYPE_CODE] : List Nat).Nodup ∧
    ((∀ a : Int, (Value.i32 a).type_code = I32_METRIC_TYPE_CODE) ∧
     (∀ a : Nat, (Value.u32 a).type_code = U32_METRIC_TYPE_CODE) ∧
     (∀ a : Int, (Value.i64 a).type_code = I64_METRIC_TYPE_CODE) ∧
     (∀ a : Nat, (Value.u64 a).type_code = U64_METRIC_TYPE_CODE) ∧
     (∀ a : Nat, (Value.f32 a).type_code = F32_METRIC_TYPE_CODE) ∧
     (∀ a : Nat, (Value.f64 a).type_code = F64_METRIC_TYPE_CODE) ∧
     (∀ t : List Nat, (Value.text t).type_code = STRING_METRIC_TYPE_CODE)) ∧
    (Semamtics.code .Counter = 1 ∧ Semamtics.code .Instant = 3 ∧
     Semamtics.code .Discrete = 4) :=
  ⟨⟨rfl, rfl, rfl, rfl, rfl, rfl, rfl⟩, by decide,
   ⟨fun _ => rfl, fun _ => rfl, fun _ => rfl, fun _ => rfl, fun _ => rfl,
    fun _ => rfl, fun _ => rfl⟩, rfl, rfl, rfl⟩

/-- C8: rebinding replaces only the backing-region handle — every other
descriptor attribute, including the in-process value, is unchanged, and
the new region's bytes are exactly those supplied (nothing is encoded into
it at rebind time). -/
theorem claim_rebind_frame (m : Metric) (r : List Nat) :
    (m.set_mmap_view r).name = m.name ∧
    (m.set_mmap_view r).item = m.item ∧
    (m.set_mmap_view r).sem = m.sem ∧
    (m.set_mmap_view r).dim = m.dim ∧
    (m.set_mmap_view r).indom = m.indom ∧
    (m.set_mmap_view r).shorthelp = m.shorthelp ∧
    (m.set_mmap_view r).longhelp = m.longhelp ∧
    (m.set_mmap_view r).val = m.val ∧
    (m.set_mmap_view r).mmap_view = r :=
  ⟨rfl, rfl, rfl, rfl, rfl, rfl, rfl, rfl, rfl⟩

/-- C10: in every reachable descriptor state the instance-domain
identifier is 0 — construction sets it to 0 and no core operation changes
it, so the type-erased indom accessor always returns 0. -/
theorem claim_indom_always_zero (c : Config) (m : Metric)
    (h : Reachable c m) : m.mmvIndom = 0 := by
  induction h with
  | new name item sem dim v sh lh m hm =>
    unfold Metric.new at hm
    split_ifs at hm with hcond
    cases hm
    rfl
  | step_set_val m v _ ih =>
    simpa [Metric.mmvIndom, Metric.set_val] using ih
  | step_rebind m r _ ih =>
    simpa [Metric.mmvIndom, Metric.set_mmap_view] using ih

/-- Witness for C10: a freshly constructed descriptor is reachable and its
indom accessor returns 0. -/
theorem claim_indom_always_zero_witness :
    Metric.mmvIndom (witnessMetric 0 (.u32 0)) = 0 :=
  claim_indom_always_zero ⟨.little, 64, 8⟩ _
    (Reachable.new [] 0 .Counter 0 (.u32 0) [] [] _ (by decide))

end Hornet
